import Mathlib

/-!
Verification of the listing-finder pipeline (normalization, dedup, extraction,
fetch fallback, search domain filter) against its TypeScript source.

The repository contains three near-duplicate variants of the tool set:
variant 0 lives in src/unnamed/part_000, variant 1 is the first half of
src/unnamed/part_001, and variant 2 is the second half of part_001.
Each tool whose behaviour differs between variants is embedded once per
variant, with the variant index as a suffix.

Modelling conventions (shallow embedding of the JavaScript semantics):
* JS number fields are modelled as integers.  The tool schemas type the
  numeric fields with z.number(); every value the specification and the
  claims exercise is an integer in the JSON-interchange range, where the
  JS number-to-string conversion prints plain decimal digits with an
  optional minus sign, which is what intToStr implements.
* A missing object key and a null value behave identically under the
  nullish operators used by the source, so both are modelled as none.
* Number.isFinite checks sit downstream of digit-only parses; a digit-only
  parse is finite for every input the integer model can express, so the
  checks are identity in the model (noted where they occur).
-/

namespace ListingFinder

/-- The character class of the JS regular-expression escape backslash-s and of
String.prototype.trim: ASCII whitespace, NEL-free Unicode space separators,
line separators, no-break space, and the BOM. -/
def isJsWS (c : Char) : Bool :=
  let n := c.toNat
  n = 32 || n = 9 || n = 10 || n = 13 || n = 11 || n = 12 ||
  n = 0xa0 || n = 0x1680 || (0x2000 ≤ n && n ≤ 0x200a) ||
  n = 0x2028 || n = 0x2029 || n = 0x202f || n = 0x205f || n = 0x3000 || n = 0xfeff

/-- Both-ends whitespace trim on the character list, as String.prototype.trim. -/
def trimList (l : List Char) : List Char :=
  ((l.dropWhile isJsWS).reverse.dropWhile isJsWS).reverse

/-- JS String.prototype.trim. -/
def trimStr (s : String) : String :=
  ⟨trimList s.data⟩

/-- JS falls through a second dropWhile unchanged. -/
theorem dropWhile_dropWhile (p : Char → Bool) (l : List Char) :
    (l.dropWhile p).dropWhile p = l.dropWhile p := by
  induction l with
  | nil => rfl
  | cons c t ih =>
    by_cases h : p c
    · simp [List.dropWhile_cons, h, ih]
    · simp [List.dropWhile_cons, h]

theorem dropWhile_head_false (p : Char → Bool) (l : List Char) :
    l.dropWhile p = [] ∨ ∃ c t, l.dropWhile p = c :: t ∧ p c = false := by
  induction l with
  | nil => exact Or.inl rfl
  | cons c t ih =>
    by_cases h : p c
    · simpa [List.dropWhile_cons, h] using ih
    · exact Or.inr ⟨c, t, by simp [List.dropWhile_cons, h], by simpa using h⟩

theorem dropWhile_suffix_of (p : Char → Bool) (l : List Char) :
    ∃ t, l = t ++ l.dropWhile p := by
  induction l with
  | nil => exact ⟨[], rfl⟩
  | cons c t ih =>
    by_cases h : p c
    · obtain ⟨u, hu⟩ := ih
      exact ⟨c :: u, by simp [List.dropWhile_cons, h, ← hu]⟩
    · exact ⟨[], by simp [List.dropWhile_cons, h]⟩

/-- Trimming is idempotent. -/
theorem trimList_idem (l : List Char) : trimList (trimList l) = trimList l := by
  unfold trimList
  set A := l.dropWhile isJsWS with hA
  set B := (A.reverse.dropWhile isJsWS).reverse with hB
  -- B is a prefix of A
  have hpre : ∃ r, A = B ++ r := by
    obtain ⟨t0, ht0⟩ := dropWhile_suffix_of isJsWS A.reverse
    refine ⟨t0.reverse, ?_⟩
    have h2 : A.reverse.reverse = (t0 ++ A.reverse.dropWhile isJsWS).reverse :=
      congrArg List.reverse ht0
    simpa [List.reverse_append, hB] using h2
  -- hence a nonempty B starts with the head of A, which fails the predicate
  have hBdrop : B.dropWhile isJsWS = B := by
    rcases hcase : B with _ | ⟨c, t⟩
    · rfl
    · obtain ⟨r, hr⟩ := hpre
      rcases dropWhile_head_false isJsWS l with h0 | ⟨d, u, hdu, hd⟩
      · rw [← hA] at h0
        rw [h0, hcase] at hr
        simp at hr
      · rw [← hA] at hdu
        rw [hdu, hcase] at hr
        have hcd : d = c := (List.cons.injEq _ _ _ _ ▸ hr).1
        simp [List.dropWhile_cons, ← hcd, hd]
  have hBrev : B.reverse.dropWhile isJsWS = B.reverse := by
    rw [hB, List.reverse_reverse, dropWhile_dropWhile]
  rw [hBdrop, hBrev, List.reverse_reverse, hB]

theorem trimStr_idem (s : String) : trimStr (trimStr s) = trimStr s := by
  unfold trimStr
  exact congrArg String.mk (trimList_idem s.data)

/-! ## Decimal printing and digit parsing

The JS sources convert numbers to text with String(v), strip non-digits with
a replace over the class backslash-d, and parse back with Number.  For
decimal digit runs, Number folds the digits in base ten, and Number of the
empty string is zero. -/

def digitChar (n : Nat) : Char := Char.ofNat (48 + n)

/-- Decimal digits of a natural number, most significant first, with fuel
(the fuel n + 1 always suffices for n). -/
def natToDigitsAux : Nat → Nat → List Char
  | 0, _ => []
  | fuel + 1, n =>
    if n < 10 then [digitChar n]
    else natToDigitsAux fuel (n / 10) ++ [digitChar (n % 10)]

/-- JS String(n) for a natural number. -/
def natToDigits (n : Nat) : List Char := natToDigitsAux (n + 1) n

/-- JS String(v) for an integer: decimal digits with an optional minus sign. -/
def intToStr (n : Int) : List Char :=
  if n < 0 then '-' :: natToDigits n.natAbs else natToDigits n.natAbs

/-- JS Number on a digit-only character run: base-ten fold.  For the empty
run this yields 0, exactly as Number of the empty string does in JS. -/
def parseDigits (l : List Char) : Nat :=
  l.foldl (fun a c => a * 10 + (c.toNat - 48)) 0

/-- The result of replace with the regular-expression class excluding
backslash-d: only ASCII digits survive. -/
def digitsOnly (l : List Char) : List Char := l.filter Char.isDigit

theorem digitChar_isDigit {n : Nat} (h : n < 10) : (digitChar n).isDigit = true := by
  interval_cases n <;> decide

theorem natToDigitsAux_all_digits :
    ∀ fuel n, ∀ c ∈ natToDigitsAux fuel n, c.isDigit = true := by
  intro fuel
  induction fuel with
  | zero => intro n c hc; simp [natToDigitsAux] at hc
  | succ fuel ih =>
    intro n c hc
    by_cases h : n < 10
    · simp [natToDigitsAux, h] at hc
      rw [hc]; exact digitChar_isDigit h
    · simp only [natToDigitsAux, if_neg h, List.mem_append, List.mem_singleton] at hc
      rcases hc with hc | hc
      · exact ih _ c hc
      · rw [hc]; exact digitChar_isDigit (Nat.mod_lt _ (by omega))

theorem natToDigits_all_digits (n : Nat) : ∀ c ∈ natToDigits n, c.isDigit = true :=
  natToDigitsAux_all_digits (n + 1) n

theorem digitChar_val {n : Nat} (h : n < 10) : (digitChar n).toNat - 48 = n := by
  interval_cases n <;> decide

theorem parseDigits_aux (fuel n : Nat) (hfuel : n < fuel) (a : Nat) :
    (natToDigitsAux fuel n).foldl (fun a c => a * 10 + (c.toNat - 48)) a =
      a * 10 ^ (natToDigitsAux fuel n).length + n := by
  induction fuel generalizing n a with
  | zero => omega
  | succ fuel ih =>
    by_cases h : n < 10
    · simp [natToDigitsAux, h, digitChar_val h]
    · have hrec : n / 10 < fuel := by
        have h1 : n / 10 < n := Nat.div_lt_self (by omega) (by omega)
        omega
      have hmod : n % 10 < 10 := Nat.mod_lt _ (by omega)
      simp only [natToDigitsAux, if_neg h, List.foldl_append, List.foldl_cons,
        List.foldl_nil, List.length_append, List.length_singleton]
      rw [ih _ hrec a, digitChar_val hmod]
      have hnm : 10 * (n / 10) + n % 10 = n := Nat.div_add_mod n 10
      ring_nf
      omega

/-- Round trip: parsing the decimal print of n recovers n. -/
theorem parseDigits_natToDigits (n : Nat) : parseDigits (natToDigits n) = n := by
  unfold parseDigits natToDigits
  have := parseDigits_aux (n + 1) n (by omega) 0
  simpa using this

theorem digitsOnly_natToDigits (n : Nat) : digitsOnly (natToDigits n) = natToDigits n :=
  List.filter_eq_self.mpr (natToDigits_all_digits n)

/-- Number(String(v).replace(nonDigits)) on an integer, the digit coercion
shared by toInt and the inline beds and baths conversions. -/
def jsDigitCoerce (n : Int) : Int :=
  (parseDigits (digitsOnly (intToStr n)) : Int)

theorem jsDigitCoerce_eq_natAbs (n : Int) : jsDigitCoerce n = (n.natAbs : Int) := by
  unfold jsDigitCoerce intToStr
  by_cases h : n < 0
  · rw [if_pos h]
    have hmi : digitsOnly ('-' :: natToDigits n.natAbs) = natToDigits n.natAbs := by
      have h1 : digitsOnly ('-' :: natToDigits n.natAbs) =
          digitsOnly (natToDigits n.natAbs) := by
        simp [digitsOnly, List.filter_cons, show ('-').isDigit = false by decide]
      rw [h1, digitsOnly_natToDigits]
    rw [hmi, parseDigits_natToDigits]
  · rw [if_neg h, digitsOnly_natToDigits, parseDigits_natToDigits]

theorem jsDigitCoerce_idem (n : Int) : jsDigitCoerce (jsDigitCoerce n) = jsDigitCoerce n := by
  rw [jsDigitCoerce_eq_natAbs n, jsDigitCoerce_eq_natAbs ((n.natAbs : Int))]
  simp

theorem jsDigitCoerce_nonneg (n : Int) : 0 ≤ jsDigitCoerce n := by
  rw [jsDigitCoerce_eq_natAbs]; exact Int.natCast_nonneg _

/-! ## JS values and the price and integer coercions -/

/-- The JS values that can reach the price normalizer helpers: the argument of
toPrice is typed any.  NaN and non-integer floats are outside the integer
model; no claim exercises them. -/
inductive JVal where
  | jundef : JVal
  | jnull : JVal
  | jstr : String → JVal
  | jnum : Int → JVal
  | jbool : Bool → JVal
deriving DecidableEq, Repr

/-- JS truthiness test used by the bang operator. -/
def jsFalsy : JVal → Bool
  | .jundef => true
  | .jnull => true
  | .jstr s => s == ""
  | .jnum n => n == 0
  | .jbool b => !b

/-- JS String(v). -/
def jvalToStr : JVal → List Char
  | .jundef => "undefined".data
  | .jnull => "null".data
  | .jstr s => s.data
  | .jnum n => intToStr n
  | .jbool true => "true".data
  | .jbool false => "false".data

/-- part_000 toPrice: null on falsy input, else strip non-digits and parse.
The Number.isFinite guard is identity here: a digit-only parse is finite for
every integer-model value.  Note that a truthy digit-free string parses as
Number of the empty string, which is 0 in JS, not null. -/
def toPrice (v : JVal) : Option Int :=
  if jsFalsy v then none
  else some ((parseDigits (digitsOnly (jvalToStr v)) : Nat) : Int)

/-- part_000 toInt: null on null or undefined, else the digit coercion
(again, the Number.isFinite guard is identity on the digit-only parse). -/
def toInt (v : Option Int) : Option Int :=
  match v with
  | none => none
  | some n => some (jsDigitCoerce n)

/-- A nullable string argument viewed as the any-typed argument of toPrice. -/
def jvalOfOptStr : Option String → JVal
  | none => .jundef
  | some s => .jstr s

/-- part_001 numberFromPriceLike: null on null, undefined or empty input,
null again when no digits remain after stripping, else the base-ten parse
(whose Number.isFinite guard is identity in the integer model). -/
def numberFromPriceLike (s : Option String) : Option Int :=
  match s with
  | none => none
  | some str =>
    if str == "" then none
    else
      let raw := digitsOnly str.data
      if raw = [] then none
      else some ((parseDigits raw : Nat) : Int)

/-! ## Data model

Fragment carries exactly the keys the three normalizeAndDedupeListings
variants read: the schema fields of the part_000 tool plus the alias keys
consulted by the executes (MLS, listingId, the registered-trademark MLS key,
priceText, price_str, askingPrice).  mlsReg stands for the source key spelled
MLS followed by the registered sign.  Numeric fields follow the tool schemas
(z.number().nullable()); a missing key and null both read as none under the
nullish operators of the source. -/
structure Fragment where
  mls : Option String
  MLS : Option String
  listingId : Option String
  mlsReg : Option String
  url : Option String
  address : Option String
  price : Option Int
  priceText : Option String
  price_str : Option String
  askingPrice : Option String
  beds : Option Int
  baths : Option Int
  type : Option String
  note_fr : Option String
  note_en : Option String
deriving DecidableEq, Repr

def blankFragment : Fragment :=
  ⟨none, none, none, none, none, none, none, none, none, none, none, none,
   none, none, none⟩

/-- The canonical listing pushed to the output batch.  The part_001 second
variant pushes an object without note keys; reading a missing key yields
undefined, which this model represents as none. -/
structure Listing where
  mls : String
  url : Option String
  address : Option String
  price : Option Int
  beds : Option Int
  baths : Option Int
  type : Option String
  note_fr : Option String
  note_en : Option String
deriving DecidableEq, Repr

def sentinelMls : String := "MLS non trouvé / MLS not found"

/-! ## The three normalizeAndDedupeListings variants -/

/-- Identifier resolution of part_000 and of the first part_001 variant:
first non-nullish of mls, MLS, listingId, the registered-sign MLS key, then
toString (identity on strings), trim, and the or-else with the sentinel,
which also replaces a whitespace-only identifier. -/
def resolveMls01 (f : Fragment) : String :=
  match f.mls <|> f.MLS <|> f.listingId <|> f.mlsReg with
  | none => sentinelMls
  | some s => if trimStr s = "" then sentinelMls else trimStr s

/-- Identifier resolution of the second part_001 variant: first non-nullish
of mls and MLS with the sentinel as default, no toString, no trim, and no
empty-string coercion. -/
def resolveMls2 (f : Fragment) : String :=
  (f.mls <|> f.MLS).getD sentinelMls

/-- Dedup key of part_000: MLS-prefixed for a real identifier, URL-prefixed
for a truthy url under the sentinel, else empty. -/
def keyFor0 (m : String) (url : Option String) : String :=
  if m ≠ sentinelMls then "MLS:" ++ m
  else
    match url with
    | some u => if u ≠ "" then "URL:" ++ u else ""
    | none => ""

/-- Dedup key of both part_001 variants: MLS-prefixed for a real identifier,
else the raw url with empty-string default. -/
def keyFor12 (m : String) (url : Option String) : String :=
  if m ≠ sentinelMls then "MLS:" ++ m else url.getD ""

/-- Field normalization of part_000: prefer the numeric price (Number on an
in-range number is the number itself), else toPrice over the textual price
aliases; beds and baths through toInt; the rest passed through. -/
def mkEntry0 (f : Fragment) (m : String) : Listing :=
  { mls := m
    url := f.url
    address := f.address
    price :=
      match f.price with
      | some n => some n
      | none => toPrice (jvalOfOptStr (f.priceText <|> f.price_str <|> f.askingPrice))
    beds := toInt f.beds
    baths := toInt f.baths
    type := f.type
    note_fr := f.note_fr
    note_en := f.note_en }

/-- Field normalization of the first part_001 variant: numeric price or
numberFromPriceLike over the aliases, then a Number.isFinite guard that is
identity in the integer model; beds through the digit coercion; baths
through the coercion that also keeps dots, which coincides with the digit
coercion on integer prints. -/
def mkEntry1 (f : Fragment) (m : String) : Listing :=
  { mls := m
    url := f.url
    address := f.address
    price :=
      match f.price with
      | some n => some n
      | none => numberFromPriceLike (f.priceText <|> f.price_str <|> f.askingPrice)
    beds := f.beds.map jsDigitCoerce
    baths := f.baths.map jsDigitCoerce
    type := f.type
    note_fr := f.note_fr
    note_en := f.note_en }

/-- Field normalization of the second part_001 variant: price is
Number(it.price) or-else null, so null, a missing price and a zero price all
collapse to null; beds and baths passed through unchanged; the pushed object
has no note keys. -/
def mkEntry2 (f : Fragment) (m : String) : Listing :=
  { mls := m
    url := f.url
    address := f.address
    price :=
      match f.price with
      | some n => if n = 0 then none else some n
      | none => none
    beds := f.beds
    baths := f.baths
    type := f.type
    note_fr := none
    note_en := none }

/-- The loop of part_000 normalizeAndDedupeListings.execute.  cnt mirrors
out.length of the source; the continue, the guarded seen.add, the push and
the break at twelve follow the source line by line. -/
def run0 (seen : List String) (cnt : Nat) : List Fragment → List Listing
  | [] => []
  | it :: rest =>
    let m := resolveMls01 it
    let key := keyFor0 m it.url
    if key ≠ "" ∧ key ∈ seen then run0 seen cnt rest
    else
      let e := mkEntry0 it m
      if 12 ≤ cnt + 1 then [e]
      else e :: run0 (if key = "" then seen else key :: seen) (cnt + 1) rest

def normalizeAndDedupeListings0 (l : List Fragment) : List Listing :=
  run0 [] 0 l

/-- The loop of the first part_001 normalizeAndDedupeListings.execute:
identical control flow to part_000 with its own key and field rules. -/
def run1 (seen : List String) (cnt : Nat) : List Fragment → List Listing
  | [] => []
  | it :: rest =>
    let m := resolveMls01 it
    let key := keyFor12 m it.url
    if key ≠ "" ∧ key ∈ seen then run1 seen cnt rest
    else
      let e := mkEntry1 it m
      if 12 ≤ cnt + 1 then [e]
      else e :: run1 (if key = "" then seen else key :: seen) (cnt + 1) rest

def normalizeAndDedupeListings1 (l : List Fragment) : List Listing :=
  run1 [] 0 l

/-- The loop of the second part_001 normalizeAndDedupeListings.execute: no
emptiness guard, so the empty key is also checked against and added to the
seen set. -/
def run2 (seen : List String) (cnt : Nat) : List Fragment → List Listing
  | [] => []
  | it :: rest =>
    let m := resolveMls2 it
    let key := keyFor12 m it.url
    if key ∈ seen then run2 seen cnt rest
    else
      let e := mkEntry2 it m
      if 12 ≤ cnt + 1 then [e]
      else e :: run2 (key :: seen) (cnt + 1) rest

def normalizeAndDedupeListings2 (l : List Fragment) : List Listing :=
  run2 [] 0 l

/-! ## Dedup invariants of the loops

The dedup key of an output entry is recomputable from the entry itself,
because each entry stores exactly the resolved identifier and the url the
key was derived from. -/

def keyOfListing0 (e : Listing) : String := keyFor0 e.mls e.url

def keyOfListing12 (e : Listing) : String := keyFor12 e.mls e.url

theorem keyOfListing0_mkEntry0 (f : Fragment) (m : String) :
    keyOfListing0 (mkEntry0 f m) = keyFor0 m f.url := rfl

theorem keyOfListing12_mkEntry1 (f : Fragment) (m : String) :
    keyOfListing12 (mkEntry1 f m) = keyFor12 m f.url := rfl

theorem keyOfListing12_mkEntry2 (f : Fragment) (m : String) :
    keyOfListing12 (mkEntry2 f m) = keyFor12 m f.url := rfl

theorem run0_mem_key :
    ∀ (l : List Fragment) (seen : List String) (cnt : Nat) (e : Listing),
      e ∈ run0 seen cnt l → keyOfListing0 e ≠ "" → keyOfListing0 e ∉ seen := by
  intro l
  induction l with
  | nil => intro seen cnt e he; simp [run0] at he
  | cons it rest ih =>
    intro seen cnt e he hne
    simp only [run0] at he
    split at he
    · exact ih seen cnt e he hne
    · rename_i hguard
      split at he
      · simp only [List.mem_singleton] at he
        subst he
        rw [keyOfListing0_mkEntry0] at hne ⊢
        intro hmem
        exact hguard ⟨hne, hmem⟩
      · simp only [List.mem_cons] at he
        rcases he with he | he
        · subst he
          rw [keyOfListing0_mkEntry0] at hne ⊢
          intro hmem
          exact hguard ⟨hne, hmem⟩
        · have hsub := ih _ _ _ he hne
          intro hmem
          apply hsub
          split
          · exact hmem
          · exact List.mem_cons_of_mem _ hmem

theorem run0_pairwise_key :
    ∀ (l : List Fragment) (seen : List String) (cnt : Nat),
      (run0 seen cnt l).Pairwise
        (fun a b => keyOfListing0 a ≠ "" → keyOfListing0 a ≠ keyOfListing0 b) := by
  intro l
  induction l with
  | nil => intro seen cnt; simp [run0]
  | cons it rest ih =>
    intro seen cnt
    simp only [run0]
    split
    · exact ih seen cnt
    · rename_i hguard
      split
      · simp
      · refine List.Pairwise.cons ?_ (ih _ _)
        intro b hb hne
        rw [keyOfListing0_mkEntry0] at hne ⊢
        have hbkey := run0_mem_key _ _ _ b hb
        by_cases hbe : keyOfListing0 b = ""
        · rw [hbe]; exact hne
        · intro heq
          apply hbkey hbe
          rw [← heq]
          have : ¬ keyFor0 (resolveMls01 it) it.url = "" := hne
          simp only [if_neg this]
          exact List.mem_cons_self _ _

theorem run0_length :
    ∀ (l : List Fragment) (seen : List String) (cnt : Nat), cnt ≤ 11 →
      (run0 seen cnt l).length ≤ 12 - cnt := by
  intro l
  induction l with
  | nil => intro seen cnt h; simp [run0]
  | cons it rest ih =>
    intro seen cnt h
    simp only [run0]
    split
    · exact ih seen cnt h
    · split
      · rename_i hbreak
        simp only [List.length_singleton]
        omega
      · rename_i hbreak
        have hc : cnt + 1 ≤ 11 := by omega
        have := ih (if keyFor0 (resolveMls01 it) it.url = "" then seen
          else keyFor0 (resolveMls01 it) it.url :: seen) (cnt + 1) hc
        simp only [List.length_cons]
        omega

theorem run1_mem_key :
    ∀ (l : List Fragment) (seen : List String) (cnt : Nat) (e : Listing),
      e ∈ run1 seen cnt l → keyOfListing12 e ≠ "" → keyOfListing12 e ∉ seen := by
  intro l
  induction l with
  | nil => intro seen cnt e he; simp [run1] at he
  | cons it rest ih =>
    intro seen cnt e he hne
    simp only [run1] at he
    split at he
    · exact ih seen cnt e he hne
    · rename_i hguard
      split at he
      · simp only [List.mem_singleton] at he
        subst he
        rw [keyOfListing12_mkEntry1] at hne ⊢
        intro hmem
        exact hguard ⟨hne, hmem⟩
      · simp only [List.mem_cons] at he
        rcases he with he | he
        · subst he
          rw [keyOfListing12_mkEntry1] at hne ⊢
          intro hmem
          exact hguard ⟨hne, hmem⟩
        · have hsub := ih _ _ _ he hne
          intro hmem
          apply hsub
          split
          · exact hmem
          · exact List.mem_cons_of_mem _ hmem

theorem run1_pairwise_key :
    ∀ (l : List Fragment) (seen : List String) (cnt : Nat),
      (run1 seen cnt l).Pairwise
        (fun a b => keyOfListing12 a ≠ "" → keyOfListing12 a ≠ keyOfListing12 b) := by
  intro l
  induction l with
  | nil => intro seen cnt; simp [run1]
  | cons it rest ih =>
    intro seen cnt
    simp only [run1]
    split
    · exact ih seen cnt
    · rename_i hguard
      split
      · simp
      · refine List.Pairwise.cons ?_ (ih _ _)
        intro b hb hne
        rw [keyOfListing12_mkEntry1] at hne ⊢
        have hbkey := run1_mem_key _ _ _ b hb
        by_cases hbe : keyOfListing12 b = ""
        · rw [hbe]; exact hne
        · intro heq
          apply hbkey hbe
          rw [← heq]
          have : ¬ keyFor12 (resolveMls01 it) it.url = "" := hne
          simp only [if_neg this]
          exact List.mem_cons_self _ _

theorem run1_length :
    ∀ (l : List Fragment) (seen : List String) (cnt : Nat), cnt ≤ 11 →
      (run1 seen cnt l).length ≤ 12 - cnt := by
  intro l
  induction l with
  | nil => intro seen cnt h; simp [run1]
  | cons it rest ih =>
    intro seen cnt h
    simp only [run1]
    split
    · exact ih seen cnt h
    · split
      · rename_i hbreak
        simp only [List.length_singleton]
        omega
      · rename_i hbreak
        have hc : cnt + 1 ≤ 11 := by omega
        have := ih (if keyFor12 (resolveMls01 it) it.url = "" then seen
          else keyFor12 (resolveMls01 it) it.url :: seen) (cnt + 1) hc
        simp only [List.length_cons]
        omega

theorem run2_mem_key :
    ∀ (l : List Fragment) (seen : List String) (cnt : Nat) (e : Listing),
      e ∈ run2 seen cnt l → keyOfListing12 e ∉ seen := by
  intro l
  induction l with
  | nil => intro seen cnt e he; simp [run2] at he
  | cons it rest ih =>
    intro seen cnt e he
    simp only [run2] at he
    split at he
    · exact ih seen cnt e he
    · rename_i hguard
      split at he
      · simp only [List.mem_singleton] at he
        subst he
        rw [keyOfListing12_mkEntry2]
        exact hguard
      · simp only [List.mem_cons] at he
        rcases he with he | he
        · subst he
          rw [keyOfListing12_mkEntry2]
          exact hguard
        · have hsub := ih _ _ _ he
          intro hmem
          exact hsub (List.mem_cons_of_mem _ hmem)

theorem run2_pairwise_key :
    ∀ (l : List Fragment) (seen : List String) (cnt : Nat),
      (run2 seen cnt l).Pairwise
        (fun a b => keyOfListing12 a ≠ keyOfListing12 b) := by
  intro l
  induction l with
  | nil => intro seen cnt; simp [run2]
  | cons it rest ih =>
    intro seen cnt
    simp only [run2]
    split
    · exact ih seen cnt
    · rename_i hguard
      split
      · simp
      · refine List.Pairwise.cons ?_ (ih _ _)
        intro b hb
        rw [keyOfListing12_mkEntry2]
        have hbkey := run2_mem_key _ _ _ b hb
        intro heq
        apply hbkey
        rw [← heq]
        exact List.mem_cons_self _ _

theorem run2_length :
    ∀ (l : List Fragment) (seen : List String) (cnt : Nat), cnt ≤ 11 →
      (run2 seen cnt l).length ≤ 12 - cnt := by
  intro l
  induction l with
  | nil => intro seen cnt h; simp [run2]
  | cons it rest ih =>
    intro seen cnt h
    simp only [run2]
    split
    · exact ih seen cnt h
    · split
      · rename_i hbreak
        simp only [List.length_singleton]
        omega
      · rename_i hbreak
        have hc : cnt + 1 ≤ 11 := by omega
        have := ih (keyFor12 (resolveMls2 it) it.url :: seen) (cnt + 1) hc
        simp only [List.length_cons]
        omega

/-! ## The dedup batch invariant (claim C1) -/

/-- The invariant exactly as the claim states it: no two entries share a
non-sentinel mls, and no two entries with the sentinel mls share a non-null
url. -/
def dedupClaim (L : List Listing) : Prop :=
  L.Pairwise (fun a b =>
    (a.mls ≠ sentinelMls → a.mls ≠ b.mls) ∧
    ¬(a.mls = sentinelMls ∧ b.mls = sentinelMls ∧ a.url ≠ none ∧ a.url = b.url))

/-- The invariant the code actually maintains: as above, but only a
non-empty url is subject to dedup, because an empty url string is falsy and
leaves the fragment keyless. -/
def dedupAmended (L : List Listing) : Prop :=
  L.Pairwise (fun a b =>
    (a.mls ≠ sentinelMls → a.mls ≠ b.mls) ∧
    ¬(a.mls = sentinelMls ∧ b.mls = sentinelMls ∧ a.url ≠ none ∧
      a.url ≠ some "" ∧ a.url = b.url))

theorem mlsKey_ne_empty (m : String) : ("MLS:" ++ m) ≠ "" := by
  intro h
  have := congrArg String.data h
  simp [String.data_append] at this

theorem urlKey_ne_empty (u : String) : ("URL:" ++ u) ≠ "" := by
  intro h
  have := congrArg String.data h
  simp [String.data_append] at this

theorem mlsKey_inj {m n : String} (h : ("MLS:" ++ m) = ("MLS:" ++ n)) : m = n := by
  have := congrArg String.data h
  simp [String.data_append] at this
  exact String.ext this

theorem amended_of_keys0 (L : List Listing)
    (h : L.Pairwise fun a b =>
      keyOfListing0 a ≠ "" → keyOfListing0 a ≠ keyOfListing0 b) :
    dedupAmended L := by
  refine h.imp ?_
  intro a b hk
  constructor
  · intro hna heq
    have hka : keyOfListing0 a = "MLS:" ++ a.mls := by
      simp [keyOfListing0, keyFor0, if_pos hna]
    have hnb : b.mls ≠ sentinelMls := heq ▸ hna
    have hkb : keyOfListing0 b = "MLS:" ++ b.mls := by
      simp [keyOfListing0, keyFor0, if_pos hnb]
    apply hk (hka ▸ mlsKey_ne_empty a.mls)
    rw [hka, hkb, heq]
  · rintro ⟨hsa, hsb, hnn, hne, hab⟩
    obtain ⟨u, hu⟩ : ∃ u, a.url = some u := by
      cases hau : a.url with
      | none => exact absurd hau hnn
      | some u => exact ⟨u, rfl⟩
    have hue : u ≠ "" := by
      intro h0
      exact hne (by rw [hu, h0])
    have hnota : ¬ (a.mls ≠ sentinelMls) := fun hc => hc hsa
    have hnotb : ¬ (b.mls ≠ sentinelMls) := fun hc => hc hsb
    have hka : keyOfListing0 a = "URL:" ++ u := by
      simp [keyOfListing0, keyFor0, if_neg hnota, hu, hue]
    have hkb : keyOfListing0 b = "URL:" ++ u := by
      have hbu : b.url = some u := by rw [← hab, hu]
      simp [keyOfListing0, keyFor0, if_neg hnotb, hbu, hue]
    exact hk (hka ▸ urlKey_ne_empty u) (by rw [hka, hkb])

theorem amended_of_keys12 (L : List Listing)
    (h : L.Pairwise fun a b =>
      keyOfListing12 a ≠ "" → keyOfListing12 a ≠ keyOfListing12 b) :
    dedupAmended L := by
  refine h.imp ?_
  intro a b hk
  constructor
  · intro hna heq
    have hka : keyOfListing12 a = "MLS:" ++ a.mls := by
      simp [keyOfListing12, keyFor12, if_pos hna]
    have hnb : b.mls ≠ sentinelMls := heq ▸ hna
    have hkb : keyOfListing12 b = "MLS:" ++ b.mls := by
      simp [keyOfListing12, keyFor12, if_pos hnb]
    apply hk (hka ▸ mlsKey_ne_empty a.mls)
    rw [hka, hkb, heq]
  · rintro ⟨hsa, hsb, hnn, hne, hab⟩
    obtain ⟨u, hu⟩ : ∃ u, a.url = some u := by
      cases hau : a.url with
      | none => exact absurd hau hnn
      | some u => exact ⟨u, rfl⟩
    have hue : u ≠ "" := by
      intro h0
      exact hne (by rw [hu, h0])
    have hnota : ¬ (a.mls ≠ sentinelMls) := fun hc => hc hsa
    have hnotb : ¬ (b.mls ≠ sentinelMls) := fun hc => hc hsb
    have hka : keyOfListing12 a = u := by
      simp [keyOfListing12, keyFor12, if_neg hnota, hu]
    have hkb : keyOfListing12 b = u := by
      have hbu : b.url = some u := by rw [← hab, hu]
      simp [keyOfListing12, keyFor12, if_neg hnotb, hbu]
    exact hk (hka ▸ hue) (by rw [hka, hkb])

/-! ## Fresh-key runs (claim C3 scenario) -/

theorem run0_fresh :
    ∀ (l : List Fragment) (seen : List String) (cnt : Nat), cnt ≤ 11 →
      (∀ f ∈ l, keyFor0 (resolveMls01 f) f.url ≠ "") →
      (∀ f ∈ l, keyFor0 (resolveMls01 f) f.url ∉ seen) →
      (l.map fun f => keyFor0 (resolveMls01 f) f.url).Pairwise (· ≠ ·) →
      run0 seen cnt l = (l.take (12 - cnt)).map fun f => mkEntry0 f (resolveMls01 f) := by
  intro l
  induction l with
  | nil => intro seen cnt _ _ _ _; simp [run0]
  | cons it rest ih =>
    intro seen cnt hcnt hne hfresh hpw
    have hkne := hne it (List.mem_cons_self _ _)
    have hkfresh := hfresh it (List.mem_cons_self _ _)
    simp only [run0]
    rw [if_neg (fun hc => hkfresh hc.2)]
    rw [List.map_cons, List.pairwise_cons] at hpw
    by_cases hbreak : 12 ≤ cnt + 1
    · rw [if_pos hbreak]
      have h1 : 12 - cnt = 1 := by omega
      rw [h1]
      simp
    · rw [if_neg hbreak, if_neg hkne]
      have hrec := ih (keyFor0 (resolveMls01 it) it.url :: seen) (cnt + 1) (by omega)
        (fun f hf => hne f (List.mem_cons_of_mem _ hf))
        (fun f hf => by
          simp only [List.mem_cons]
          rintro (hx | hx)
          · exact hpw.1 _ (List.mem_map_of_mem _ hf) hx.symm
          · exact hfresh f (List.mem_cons_of_mem _ hf) hx)
        hpw.2
      rw [hrec]
      have h1 : 12 - cnt = (12 - (cnt + 1)) + 1 := by omega
      rw [h1, List.take_succ_cons, List.map_cons]

theorem run1_fresh :
    ∀ (l : List Fragment) (seen : List String) (cnt : Nat), cnt ≤ 11 →
      (∀ f ∈ l, keyFor12 (resolveMls01 f) f.url ≠ "") →
      (∀ f ∈ l, keyFor12 (resolveMls01 f) f.url ∉ seen) →
      (l.map fun f => keyFor12 (resolveMls01 f) f.url).Pairwise (· ≠ ·) →
      run1 seen cnt l = (l.take (12 - cnt)).map fun f => mkEntry1 f (resolveMls01 f) := by
  intro l
  induction l with
  | nil => intro seen cnt _ _ _ _; simp [run1]
  | cons it rest ih =>
    intro seen cnt hcnt hne hfresh hpw
    have hkne := hne it (List.mem_cons_self _ _)
    have hkfresh := hfresh it (List.mem_cons_self _ _)
    simp only [run1]
    rw [if_neg (fun hc => hkfresh hc.2)]
    rw [List.map_cons, List.pairwise_cons] at hpw
    by_cases hbreak : 12 ≤ cnt + 1
    · rw [if_pos hbreak]
      have h1 : 12 - cnt = 1 := by omega
      rw [h1]
      simp
    · rw [if_neg hbreak, if_neg hkne]
      have hrec := ih (keyFor12 (resolveMls01 it) it.url :: seen) (cnt + 1) (by omega)
        (fun f hf => hne f (List.mem_cons_of_mem _ hf))
        (fun f hf => by
          simp only [List.mem_cons]
          rintro (hx | hx)
          · exact hpw.1 _ (List.mem_map_of_mem _ hf) hx.symm
          · exact hfresh f (List.mem_cons_of_mem _ hf) hx)
        hpw.2
      rw [hrec]
      have h1 : 12 - cnt = (12 - (cnt + 1)) + 1 := by omega
      rw [h1, List.take_succ_cons, List.map_cons]

instance decDedupClaim (L : List Listing) : Decidable (dedupClaim L) := by
  unfold dedupClaim
  exact List.instDecidablePairwise _

instance decDedupAmended (L : List Listing) : Decidable (dedupAmended L) := by
  unfold dedupAmended
  exact List.instDecidablePairwise _

/-- A 15-fragment batch with pairwise-distinct non-sentinel identifiers,
used to instantiate the claim C3 scenario. -/
def scenarioFrags : List Fragment :=
  (["A1", "A2", "A3", "A4", "A5", "A6", "A7", "A8", "A9", "B1", "B2", "B3",
    "B4", "B5", "B6"]).map (fun s => { blankFragment with mls := some s })

/-- Claim C1 counterexample: the dedup invariant exactly as the claim states
it fails on part_000 normalizeAndDedupeListings for a batch of two sentinel
fragments whose url is the empty string.  The empty string is falsy, so both
fragments are keyless and kept, and both output entries carry the sentinel
mls together with the same non-null url. -/
theorem claim_C1_counterexample :
    ¬ dedupClaim (normalizeAndDedupeListings0
      [{ blankFragment with url := some "" },
       { blankFragment with url := some "" }]) := by
  decide

/-- Claim C1 (amended): for every input batch, each of the three
normalizeAndDedupeListings variants returns a batch in which no two entries
share a non-sentinel mls, and no two entries carrying the sentinel mls share
a non-null, non-empty url.  The amendment replaces non-null by non-empty:
a present but empty url string is falsy in the key computation, so such
sentinel entries are keyless and are all kept. -/
theorem claim_C1_amended (l : List Fragment) :
    dedupAmended (normalizeAndDedupeListings0 l) ∧
    dedupAmended (normalizeAndDedupeListings1 l) ∧
    dedupAmended (normalizeAndDedupeListings2 l) := by
  refine ⟨amended_of_keys0 _ (run0_pairwise_key l [] 0),
          amended_of_keys12 _ (run1_pairwise_key l [] 0),
          amended_of_keys12 _ ?_⟩
  exact (run2_pairwise_key l [] 0).imp
    fun hR => fun (_ : keyOfListing12 _ ≠ "") => hR

/-- Claim C1 witness: the amended invariant instantiated at the very batch
of the counterexample, two sentinel fragments with an empty-string url. -/
theorem claim_C1_witness :
    dedupAmended (normalizeAndDedupeListings0
      [{ blankFragment with url := some "" },
       { blankFragment with url := some "" }]) ∧
    dedupAmended (normalizeAndDedupeListings1
      [{ blankFragment with url := some "" },
       { blankFragment with url := some "" }]) ∧
    dedupAmended (normalizeAndDedupeListings2
      [{ blankFragment with url := some "" },
       { blankFragment with url := some "" }]) :=
  claim_C1_amended
    [{ blankFragment with url := some "" }, { blankFragment with url := some "" }]

/-- Claim C2: in part_000 a keyless fragment (sentinel identifier, no url)
is always kept, so two empty fragments yield two entries; but the second
part_001 variant, which the claim also cites, adds the empty key to the seen
set and drops the second keyless fragment, yielding one entry where the
claim requires two.  This contradicts the spec sentence that a keyless
fragment is always kept, and the guarded seen.add of the two sibling
variants shows the intent; the missing emptiness guard is a slip. -/
theorem claim_C2_bug :
    (normalizeAndDedupeListings0 [blankFragment, blankFragment]).length = 2 ∧
    (normalizeAndDedupeListings2 [blankFragment, blankFragment]).length = 1 := by
  decide

/-- Claim C3: every output batch of the three normalizeAndDedupeListings
variants has length at most twelve, and for a batch of fifteen fragments
whose resolved identifiers are pairwise-distinct and non-sentinel, the
output of the two cited variants is exactly the first twelve fragments,
normalized, in input order. -/
theorem claim_C3 :
    (∀ l : List Fragment, (normalizeAndDedupeListings0 l).length ≤ 12) ∧
    (∀ l : List Fragment, (normalizeAndDedupeListings1 l).length ≤ 12) ∧
    (∀ l : List Fragment, (normalizeAndDedupeListings2 l).length ≤ 12) ∧
    (∀ l : List Fragment, l.length = 15 →
      (∀ f ∈ l, resolveMls01 f ≠ sentinelMls) →
      (l.map resolveMls01).Pairwise (· ≠ ·) →
      normalizeAndDedupeListings0 l =
        (l.take 12).map (fun f => mkEntry0 f (resolveMls01 f)) ∧
      normalizeAndDedupeListings1 l =
        (l.take 12).map (fun f => mkEntry1 f (resolveMls01 f))) := by
  refine ⟨fun l => ?_, fun l => ?_, fun l => ?_, fun l hlen hns hpw => ?_⟩
  · have := run0_length l [] 0 (by omega)
    simpa [normalizeAndDedupeListings0] using this
  · have := run1_length l [] 0 (by omega)
    simpa [normalizeAndDedupeListings1] using this
  · have := run2_length l [] 0 (by omega)
    simpa [normalizeAndDedupeListings2] using this
  · have hk0 : ∀ f ∈ l, keyFor0 (resolveMls01 f) f.url = "MLS:" ++ resolveMls01 f := by
      intro f hf
      simp [keyFor0, if_pos (hns f hf)]
    have hk1 : ∀ f ∈ l, keyFor12 (resolveMls01 f) f.url = "MLS:" ++ resolveMls01 f := by
      intro f hf
      simp [keyFor12, if_pos (hns f hf)]
    have hpw' : l.Pairwise (fun a b => resolveMls01 a ≠ resolveMls01 b) :=
      List.pairwise_map.mp hpw
    constructor
    · have := run0_fresh l [] 0 (by omega)
        (fun f hf => by rw [hk0 f hf]; exact mlsKey_ne_empty _)
        (fun f hf => List.not_mem_nil _)
        (by
          rw [List.pairwise_map]
          refine hpw'.imp_of_mem ?_
          intro a b ha hb hab
          rw [hk0 a ha, hk0 b hb]
          intro hc
          exact hab (mlsKey_inj hc))
      simpa [normalizeAndDedupeListings0] using this
    · have := run1_fresh l [] 0 (by omega)
        (fun f hf => by rw [hk1 f hf]; exact mlsKey_ne_empty _)
        (fun f hf => List.not_mem_nil _)
        (by
          rw [List.pairwise_map]
          refine hpw'.imp_of_mem ?_
          intro a b ha hb hab
          rw [hk1 a ha, hk1 b hb]
          intro hc
          exact hab (mlsKey_inj hc))
      simpa [normalizeAndDedupeListings1] using this

/-- Claim C3 witness: the scenario instantiated at a concrete batch of
fifteen fragments with identifiers A1 through B6. -/
theorem claim_C3_witness :
    normalizeAndDedupeListings0 scenarioFrags =
      (scenarioFrags.take 12).map (fun f => mkEntry0 f (resolveMls01 f)) ∧
    normalizeAndDedupeListings1 scenarioFrags =
      (scenarioFrags.take 12).map (fun f => mkEntry1 f (resolveMls01 f)) :=
  claim_C3.2.2.2 scenarioFrags (by decide) (by decide) (by decide)

/-- Claim C5: the part_001 numberFromPriceLike behaves exactly as the claim
says on its examples, but the part_000 toPrice returns 0, not null, on a
truthy digit-free string such as abc, because Number of the empty string is
0 in JS and toPrice lacks the empty-digits guard that numberFromPriceLike
has.  The spec contract (null when no digits remain) and the sibling helper
show the intent; the missing guard is a slip. -/
theorem claim_C5_bug :
    toPrice (JVal.jstr "abc") = some 0 ∧
    numberFromPriceLike (some "abc") = none ∧
    toPrice (JVal.jstr "$450,000") = some 450000 ∧
    numberFromPriceLike (some "$450,000") = some 450000 ∧
    toPrice (JVal.jstr "450 000,00 $") = some 45000000 ∧
    numberFromPriceLike (some "450 000,00 $") = some 45000000 ∧
    toPrice (JVal.jstr "") = none ∧
    toPrice JVal.jnull = none ∧
    toPrice JVal.jundef = none ∧
    numberFromPriceLike (some "") = none ∧
    numberFromPriceLike none = none := by
  decide

/-- Claim C9: the price normalizer maps the number 0 and every falsy
non-string input (false, null, undefined) to null, while the string 0 maps
to the integer 0, at both the toPrice and the numberFromPriceLike
interfaces. -/
theorem claim_C9 :
    toPrice (JVal.jnum 0) = none ∧
    toPrice (JVal.jbool false) = none ∧
    toPrice JVal.jnull = none ∧
    toPrice JVal.jundef = none ∧
    toPrice (JVal.jstr "0") = some 0 ∧
    numberFromPriceLike (some "0") = some 0 := by
  decide

/-! ## Idempotence (claim C4)

Re-normalizing the returned batch means feeding the emitted JSON objects
back through execute.  An emitted listing object, read as a raw fragment,
has exactly the canonical fields and none of the alias keys. -/

def fragOfListing (e : Listing) : Fragment :=
  { mls := some e.mls
    MLS := none
    listingId := none
    mlsReg := none
    url := e.url
    address := e.address
    price := e.price
    priceText := none
    price_str := none
    askingPrice := none
    beds := e.beds
    baths := e.baths
    type := e.type
    note_fr := e.note_fr
    note_en := e.note_en }

theorem trimStr_sentinel : trimStr sentinelMls = sentinelMls := by decide

theorem sentinel_ne_empty : sentinelMls ≠ "" := by decide

theorem toInt_idem (x : Option Int) : toInt (toInt x) = toInt x := by
  cases x with
  | none => rfl
  | some n => simp [toInt, jsDigitCoerce_idem]

/-- A resolved identifier is the sentinel or a non-empty trimmed string. -/
theorem canonMls_resolveMls01 (f : Fragment) :
    resolveMls01 f = sentinelMls ∨
      (trimStr (resolveMls01 f) = resolveMls01 f ∧ resolveMls01 f ≠ "") := by
  rcases hch : (f.mls <|> f.MLS <|> f.listingId <|> f.mlsReg) with _ | s
  · exact Or.inl (by simp [resolveMls01, hch])
  · by_cases ht : trimStr s = ""
    · exact Or.inl (by simp [resolveMls01, hch, ht])
    · refine Or.inr ⟨?_, ?_⟩
      · simp only [resolveMls01, hch, if_neg ht]
        exact trimStr_idem s
      · simp only [resolveMls01, hch, if_neg ht]
        exact ht

theorem resolveMls01_fragOf (e : Listing) :
    resolveMls01 (fragOfListing e) =
      if trimStr e.mls = "" then sentinelMls else trimStr e.mls := rfl

/-- Resolving the identifier of an emitted part_000 entry recovers its mls. -/
theorem canon0_mls (f : Fragment) :
    resolveMls01 (fragOfListing (mkEntry0 f (resolveMls01 f))) =
      (mkEntry0 f (resolveMls01 f)).mls := by
  have hm : (mkEntry0 f (resolveMls01 f)).mls = resolveMls01 f := rfl
  rw [resolveMls01_fragOf, hm]
  rcases canonMls_resolveMls01 f with h | ⟨h1, h2⟩
  · rw [h, trimStr_sentinel, if_neg sentinel_ne_empty]
  · rw [h1, if_neg h2]

/-- Re-normalizing the fields of an emitted part_000 entry is identity. -/
theorem canon0_mk (f : Fragment) (m : String) :
    mkEntry0 (fragOfListing (mkEntry0 f m)) m = mkEntry0 f m := by
  unfold mkEntry0 fragOfListing
  simp only [Listing.mk.injEq, true_and, and_true]
  refine ⟨?_, toInt_idem f.beds, toInt_idem f.baths⟩
  cases hp : f.price with
  | some n => simp
  | none =>
    simp only []
    cases ht : toPrice (jvalOfOptStr (f.priceText <|> f.price_str <|> f.askingPrice)) with
    | some k => simp [ht]
    | none => simp [ht, jvalOfOptStr, toPrice, jsFalsy]

/-- Every part_000 output entry is a normalized fragment. -/
theorem run0_shape :
    ∀ (l : List Fragment) (seen : List String) (cnt : Nat) (e : Listing),
      e ∈ run0 seen cnt l → ∃ f, e = mkEntry0 f (resolveMls01 f) := by
  intro l
  induction l with
  | nil => intro seen cnt e he; simp [run0] at he
  | cons it rest ih =>
    intro seen cnt e he
    simp only [run0] at he
    split at he
    · exact ih _ _ e he
    · split at he
      · simp only [List.mem_singleton] at he
        exact ⟨it, he⟩
      · simp only [List.mem_cons] at he
        rcases he with he | he
        · exact ⟨it, he⟩
        · exact ih _ _ e he

/-- Replaying a canonical batch with fresh pairwise-distinct keys through
the part_000 loop returns it unchanged. -/
theorem run0_replay :
    ∀ (L : List Listing) (seen : List String) (cnt : Nat),
      cnt + L.length ≤ 12 →
      (∀ e ∈ L, resolveMls01 (fragOfListing e) = e.mls ∧
        mkEntry0 (fragOfListing e) e.mls = e) →
      (∀ e ∈ L, keyOfListing0 e ≠ "" → keyOfListing0 e ∉ seen) →
      L.Pairwise (fun a b => keyOfListing0 a ≠ "" → keyOfListing0 a ≠ keyOfListing0 b) →
      run0 seen cnt (L.map fragOfListing) = L := by
  intro L
  induction L with
  | nil => intro seen cnt _ _ _ _; simp [run0]
  | cons e T ih =>
    intro seen cnt hlen hcanon hfresh hpw
    obtain ⟨hres, hmk⟩ := hcanon e (List.mem_cons_self _ _)
    rw [List.pairwise_cons] at hpw
    simp only [List.map_cons, run0]
    have hurl : (fragOfListing e).url = e.url := rfl
    have hkey : keyFor0 (resolveMls01 (fragOfListing e)) (fragOfListing e).url =
        keyOfListing0 e := by
      rw [hres, hurl]; rfl
    rw [hkey]
    rw [if_neg (fun hc => hfresh e (List.mem_cons_self _ _) hc.1 hc.2)]
    have hentry : mkEntry0 (fragOfListing e) (resolveMls01 (fragOfListing e)) = e := by
      rw [hres, hmk]
    by_cases hbreak : 12 ≤ cnt + 1
    · rw [if_pos hbreak]
      have hT : T = [] := List.length_eq_zero.mp (by simp at hlen; omega)
      rw [hentry, hT]
    · rw [if_neg hbreak, hentry]
      congr 1
      apply ih _ (cnt + 1)
      · simp at hlen ⊢; omega
      · intro x hx; exact hcanon x (List.mem_cons_of_mem _ hx)
      · intro x hx hxne
        split
        · exact hfresh x (List.mem_cons_of_mem _ hx) hxne
        · rename_i hker
          simp only [List.mem_cons]
          rintro (hx1 | hx1)
          · exact hpw.1 x hx (by rw [hx1] at hxne; exact hxne) hx1.symm
          · exact hfresh x (List.mem_cons_of_mem _ hx) hxne hx1
      · exact hpw.2

/-- Resolving the identifier of an emitted second-variant entry recovers its
mls: this variant stores the resolved value without trim or coercion. -/
theorem canon2_mls (e : Listing) :
    resolveMls2 (fragOfListing e) = e.mls := rfl

/-- Re-normalizing the fields of an emitted second-variant entry is
identity: the price is already null or non-zero, the rest passes through. -/
theorem canon2_mk (f : Fragment) (m : String) :
    mkEntry2 (fragOfListing (mkEntry2 f m)) m = mkEntry2 f m := by
  unfold mkEntry2 fragOfListing
  simp only [Listing.mk.injEq, true_and, and_true]
  cases hp : f.price with
  | none => simp
  | some n =>
    by_cases h0 : n = 0
    · simp [h0]
    · simp [h0]

/-- Every second-variant output entry is a normalized fragment. -/
theorem run2_shape :
    ∀ (l : List Fragment) (seen : List String) (cnt : Nat) (e : Listing),
      e ∈ run2 seen cnt l → ∃ f, e = mkEntry2 f (resolveMls2 f) := by
  intro l
  induction l with
  | nil => intro seen cnt e he; simp [run2] at he
  | cons it rest ih =>
    intro seen cnt e he
    simp only [run2] at he
    split at he
    · exact ih _ _ e he
    · split at he
      · simp only [List.mem_singleton] at he
        exact ⟨it, he⟩
      · simp only [List.mem_cons] at he
        rcases he with he | he
        · exact ⟨it, he⟩
        · exact ih _ _ e he

/-- Replaying a canonical batch with fresh pairwise-distinct keys through
the second-variant loop returns it unchanged. -/
theorem run2_replay :
    ∀ (L : List Listing) (seen : List String) (cnt : Nat),
      cnt + L.length ≤ 12 →
      (∀ e ∈ L, mkEntry2 (fragOfListing e) e.mls = e) →
      (∀ e ∈ L, keyOfListing12 e ∉ seen) →
      L.Pairwise (fun a b => keyOfListing12 a ≠ keyOfListing12 b) →
      run2 seen cnt (L.map fragOfListing) = L := by
  intro L
  induction L with
  | nil => intro seen cnt _ _ _ _; simp [run2]
  | cons e T ih =>
    intro seen cnt hlen hcanon hfresh hpw
    have hmk := hcanon e (List.mem_cons_self _ _)
    rw [List.pairwise_cons] at hpw
    simp only [List.map_cons, run2]
    have hkey : keyFor12 (resolveMls2 (fragOfListing e)) (fragOfListing e).url =
        keyOfListing12 e := by
      rw [canon2_mls]; rfl
    rw [hkey]
    rw [if_neg (hfresh e (List.mem_cons_self _ _))]
    have hentry : mkEntry2 (fragOfListing e) (resolveMls2 (fragOfListing e)) = e := by
      rw [canon2_mls, hmk]
    by_cases hbreak : 12 ≤ cnt + 1
    · rw [if_pos hbreak]
      have hT : T = [] := List.length_eq_zero.mp (by simp at hlen; omega)
      rw [hentry, hT]
    · rw [if_neg hbreak, hentry]
      congr 1
      apply ih _ (cnt + 1)
      · simp at hlen ⊢; omega
      · intro x hx; exact hcanon x (List.mem_cons_of_mem _ hx)
      · intro x hx
        simp only [List.mem_cons]
        rintro (hx1 | hx1)
        · exact hpw.1 x hx hx1.symm
        · exact hfresh x (List.mem_cons_of_mem _ hx) hx1
      · exact hpw.2

/-- Claim C4: the part_000 and second part_001 normalizeAndDedupeListings
variants (the two the claim cites) are idempotent on their own output: for
every input batch, re-normalizing the returned listings array yields the
same array, entry for entry, in the same order. -/
theorem claim_C4 (l : List Fragment) :
    normalizeAndDedupeListings0
      ((normalizeAndDedupeListings0 l).map fragOfListing) =
      normalizeAndDedupeListings0 l ∧
    normalizeAndDedupeListings2
      ((normalizeAndDedupeListings2 l).map fragOfListing) =
      normalizeAndDedupeListings2 l := by
  constructor
  · apply run0_replay
    · have := run0_length l [] 0 (by omega)
      simpa [normalizeAndDedupeListings0] using this
    · intro e he
      obtain ⟨f, hf⟩ := run0_shape l [] 0 e he
      constructor
      · rw [hf]; exact canon0_mls f
      · rw [hf]
        have : (mkEntry0 f (resolveMls01 f)).mls = resolveMls01 f := rfl
        rw [this]
        exact canon0_mk f (resolveMls01 f)
    · intro e _ _
      exact List.not_mem_nil _
    · exact run0_pairwise_key l [] 0
  · apply run2_replay
    · have := run2_length l [] 0 (by omega)
      simpa [normalizeAndDedupeListings2] using this
    · intro e he
      obtain ⟨f, hf⟩ := run2_shape l [] 0 e he
      rw [hf]
      have : (mkEntry2 f (resolveMls2 f)).mls = resolveMls2 f := rfl
      rw [this]
      exact canon2_mk f (resolveMls2 f)
    · intro e _
      exact List.not_mem_nil _
    · exact run2_pairwise_key l [] 0

/-- Claim C4 witness: idempotence instantiated at a concrete mixed batch
with a duplicate identifier, a keyless fragment and a textual price. -/
theorem claim_C4_witness :
    normalizeAndDedupeListings0
      ((normalizeAndDedupeListings0
        [{ blankFragment with mls := some " 123456 ", priceText := some "$450,000" },
         { blankFragment with MLS := some "123456", url := some "https://a.example/1" },
         blankFragment]).map fragOfListing) =
      normalizeAndDedupeListings0
        [{ blankFragment with mls := some " 123456 ", priceText := some "$450,000" },
         { blankFragment with MLS := some "123456", url := some "https://a.example/1" },
         blankFragment] ∧
    normalizeAndDedupeListings2
      ((normalizeAndDedupeListings2
        [{ blankFragment with mls := some " 123456 ", priceText := some "$450,000" },
         { blankFragment with MLS := some "123456", url := some "https://a.example/1" },
         blankFragment]).map fragOfListing) =
      normalizeAndDedupeListings2
        [{ blankFragment with mls := some " 123456 ", priceText := some "$450,000" },
         { blankFragment with MLS := some "123456", url := some "https://a.example/1" },
         blankFragment] :=
  claim_C4
    [{ blankFragment with mls := some " 123456 ", priceText := some "$450,000" },
     { blankFragment with MLS := some "123456", url := some "https://a.example/1" },
     blankFragment]

/-! ## The MLS extraction regular expressions (claims C6 and C10)

extractListingInfo resolves its mls field with the case-insensitive pattern
MLS, optional registered or trademark glyph, optional whitespace, optional
hash, optional whitespace, optional colon or hyphen, optional whitespace,
then a non-empty capture over letters, digits and hyphens; part_000 and the
first part_001 variant fall back to the pattern Centris, whitespace, hash,
whitespace, digits and hyphens; the second part_001 variant has no
fallback.  The matcher below hand-compiles the backtracking search of the
JS engine for these two patterns: the engine tries every start position
from the left, and at a given start the only live backtrack point is the
optional hyphen directly before the capture, because the hyphen is the one
optional token that also belongs to the capture class. -/

/-- The capture class [A-Z0-9 hyphen] under the case-insensitive flag. -/
def isMlsIdChar (c : Char) : Bool :=
  (65 ≤ c.toNat && c.toNat ≤ 90) || (97 ≤ c.toNat && c.toNat ≤ 122) ||
  (48 ≤ c.toNat && c.toNat ≤ 57) || c = '-'

/-- The capture class [0-9 hyphen] of the Centris pattern. -/
def isCentrisIdChar (c : Char) : Bool :=
  (48 ≤ c.toNat && c.toNat ≤ 57) || c = '-'

/-- Case-insensitive single-character test. -/
def charCI (a : Char) (c : Char) : Bool := c.toLower = a

def dropWS (l : List Char) : List Char := l.dropWhile isJsWS

def takeId (l : List Char) : List Char := l.takeWhile isMlsIdChar

/-- The optional registered or trademark glyph. -/
def skipGlyph (l : List Char) : List Char :=
  match l with
  | c :: r => if c = '®' || c = '™' then r else c :: r
  | [] => []

/-- The optional hash. -/
def skipHash (l : List Char) : List Char :=
  match l with
  | c :: r => if c = '#' then r else c :: r
  | [] => []

/-- The optional colon-or-hyphen, optional whitespace, and capture.  When
the hyphen branch leaves an empty capture the engine backtracks and the
hyphen itself starts the capture; the colon branch has no such fallback
because the colon is outside the capture class. -/
def mlsDispatch (l3 : List Char) : Option (List Char) :=
  match l3 with
  | c :: r =>
    if c = ':' then
      let cap := takeId (dropWS r)
      if cap = [] then none else some cap
    else if c = '-' then
      let cap := takeId (dropWS r)
      if cap = [] then some (takeId l3) else some cap
    else
      let cap := takeId l3
      if cap = [] then none else some cap
  | [] => none

/-- Everything after the literal MLS and the optional glyph: optional
whitespace, optional hash, optional whitespace, then the dispatch. -/
def mlsAfter (l : List Char) : Option (List Char) :=
  mlsDispatch (dropWS (skipHash (dropWS l)))

/-- One match attempt of the MLS pattern at a fixed start position. -/
def tryMlsAt (s : List Char) : Option (List Char) :=
  match s with
  | c1 :: c2 :: c3 :: rest =>
    if charCI 'm' c1 && charCI 'l' c2 && charCI 's' c3 then
      mlsAfter (skipGlyph rest)
    else none
  | _ => none

/-- Leftmost-start search of the MLS pattern, as exec does. -/
def searchMls : List Char → Option (List Char)
  | [] => none
  | c :: t =>
    match tryMlsAt (c :: t) with
    | some cap => some cap
    | none => searchMls t

/-- One match attempt of the Centris pattern at a fixed start position. -/
def tryCentrisAt (s : List Char) : Option (List Char) :=
  match s with
  | c1 :: c2 :: c3 :: c4 :: c5 :: c6 :: c7 :: rest =>
    if charCI 'c' c1 && charCI 'e' c2 && charCI 'n' c3 && charCI 't' c4 &&
       charCI 'r' c5 && charCI 'i' c6 && charCI 's' c7 then
      match dropWS rest with
      | '#' :: r2 =>
        let cap := (dropWS r2).takeWhile isCentrisIdChar
        if cap = [] then none else some cap
      | _ => none
    else none
  | _ => none

/-- Leftmost-start search of the Centris pattern. -/
def searchCentris : List Char → Option (List Char)
  | [] => none
  | c :: t =>
    match tryCentrisAt (c :: t) with
    | some cap => some cap
    | none => searchCentris t

/-- The mls field of extractListingInfo.execute in part_000 and in the
first part_001 variant: MLS pattern, then Centris pattern, then sentinel. -/
def extractMls01 (html : String) : String :=
  match searchMls html.data with
  | some cap => ⟨cap⟩
  | none =>
    match searchCentris html.data with
    | some cap => ⟨cap⟩
    | none => sentinelMls

/-- The mls field of extractListingInfo.execute in the second part_001
variant: MLS pattern or sentinel, no Centris fallback. -/
def extractMls2 (html : String) : String :=
  match searchMls html.data with
  | some cap => ⟨cap⟩
  | none => sentinelMls

/-- ASCII letters and digits: the alphanumeric word characters of claim
C10. -/
def isAsciiWordChar (c : Char) : Bool :=
  (65 ≤ c.toNat && c.toNat ≤ 90) || (97 ≤ c.toNat && c.toNat ≤ 122) ||
  (48 ≤ c.toNat && c.toNat ≤ 57)

theorem wordChar_not_ws {c : Char} (h : isAsciiWordChar c = true) :
    isJsWS c = false := by
  simp only [isAsciiWordChar, Bool.or_eq_true, Bool.and_eq_true,
    decide_eq_true_eq] at h
  simp only [isJsWS, Bool.or_eq_false_iff, Bool.and_eq_false_iff,
    decide_eq_false_iff_not]
  omega

theorem wordChar_id {c : Char} (h : isAsciiWordChar c = true) :
    isMlsIdChar c = true := by
  simp only [isAsciiWordChar, Bool.or_eq_true, Bool.and_eq_true,
    decide_eq_true_eq] at h
  simp only [isMlsIdChar, Bool.or_eq_true, Bool.and_eq_true, decide_eq_true_eq]
  omega

theorem wordChar_ne_of {c d : Char} (h : isAsciiWordChar c = true)
    (hd : isAsciiWordChar d = false) : c ≠ d := by
  intro he
  subst he
  rw [h] at hd
  exact absurd hd (by decide)

theorem takeWhile_append_stop (p : Char → Bool) (w rest : List Char) (b : Char)
    (hw : ∀ c ∈ w, p c = true) (hb : p b = false) :
    (w ++ b :: rest).takeWhile p = w := by
  induction w with
  | nil => simp [List.takeWhile_cons, hb]
  | cons c t ih =>
    have hc := hw c (List.mem_cons_self _ _)
    simp only [List.cons_append, List.takeWhile_cons, hc, if_true]
    rw [ih (fun x hx => hw x (List.mem_cons_of_mem _ hx))]

/-- Claim C6 counterexample: the second part_001 extractListingInfo variant,
which the claim cites, has no Centris fallback, so html containing only a
Centris number yields the sentinel rather than the claimed identifier. -/
theorem claim_C6_counterexample :
    extractMls2 "Centris # 9876543" = sentinelMls ∧
    sentinelMls ≠ "9876543" := by
  decide

/-- Claim C6 (amended): part_000 and the first part_001 variant resolve mls
by trying the MLS pattern, then the Centris pattern, then the sentinel, as
the three examples show; the second part_001 variant resolves the MLS
pattern and otherwise yields the sentinel directly, with no Centris
fallback. -/
theorem claim_C6_amended :
    extractMls01 "MLS# 12345-AB" = "12345-AB" ∧
    extractMls01 "Centris # 9876543" = "9876543" ∧
    extractMls01 "Belle maison a vendre" = sentinelMls ∧
    extractMls2 "MLS# 12345-AB" = "12345-AB" ∧
    extractMls2 "Belle maison a vendre" = sentinelMls := by
  decide

/-- Claim C10: the MLS pattern needs no hash or colon delimiter, so the
token MLS followed by whitespace and a non-empty alphanumeric word captures
that word; in particular the html MLS not found yields the mls value not,
not the sentinel, in both extract variants. -/
theorem claim_C10 :
    (∀ (w rest : List Char), w ≠ [] →
      (∀ c ∈ w, isAsciiWordChar c = true) →
      searchMls ('M' :: 'L' :: 'S' :: ' ' :: (w ++ ' ' :: rest)) = some w) ∧
    extractMls01 "MLS not found" = "not" ∧
    extractMls2 "MLS not found" = "not" ∧
    ("not" : String) ≠ sentinelMls := by
  refine ⟨?_, by decide, by decide, by decide⟩
  intro w rest hne hw
  rcases w with _ | ⟨c, t⟩
  · exact absurd rfl hne
  have hc := hw c (List.mem_cons_self _ _)
  have hcws : isJsWS c = false := wordChar_not_ws hc
  have hchash : c ≠ '#' := wordChar_ne_of hc (by decide)
  have hccolon : c ≠ ':' := wordChar_ne_of hc (by decide)
  have hchyph : c ≠ '-' := wordChar_ne_of hc (by decide)
  have htake : takeId ((c :: t) ++ ' ' :: rest) = c :: t :=
    takeWhile_append_stop _ _ _ _ (fun x hx => wordChar_id (hw x hx)) (by decide)
  simp only [searchMls, tryMlsAt]
  rw [if_pos (by decide)]
  have hglyph : skipGlyph (' ' :: ((c :: t) ++ ' ' :: rest)) =
      ' ' :: ((c :: t) ++ ' ' :: rest) := by
    simp [skipGlyph]
  rw [hglyph]
  unfold mlsAfter
  have hd1 : dropWS (' ' :: ((c :: t) ++ ' ' :: rest)) = (c :: t) ++ ' ' :: rest := by
    simp only [dropWS, List.dropWhile_cons]
    rw [if_pos (by decide)]
    simp only [List.cons_append, List.dropWhile_cons, hcws]
    simp
  rw [hd1]
  have hh : skipHash ((c :: t) ++ ' ' :: rest) = (c :: t) ++ ' ' :: rest := by
    simp [skipHash, hchash]
  rw [hh]
  have hd2 : dropWS ((c :: t) ++ ' ' :: rest) = (c :: t) ++ ' ' :: rest := by
    simp only [dropWS, List.cons_append, List.dropWhile_cons, hcws]
    simp
  rw [hd2]
  simp only [mlsDispatch, List.cons_append]
  rw [if_neg hccolon, if_neg hchyph]
  have htake' : takeId (c :: (t ++ ' ' :: rest)) = c :: t := by
    simpa using htake
  simp only [htake']
  simp

/-- Claim C10 witness: the general capture statement applied to the word
not with trailing text found, the exact configuration of the html MLS not
found. -/
theorem claim_C10_witness :
    searchMls ('M' :: 'L' :: 'S' :: ' ' ::
      ((['n', 'o', 't'] : List Char) ++ ' ' :: "found".data)) =
      some (['n', 'o', 't'] : List Char) :=
  claim_C10.1 ['n', 'o', 't'] "found".data (by decide) (by decide)

/-! ## HTML sanitization and the page fetch fallback (claim C7)

The part_000 helper stripScriptsStyles removes script blocks, style blocks
and comments with global lazy patterns, collapses whitespace runs and
trims.  The lazy quantifier pairs each opening token with the nearest
closing token after it; if no closing token follows the first opening
token, none follows any later one either, so the pattern has no match at
all, and a global replace resumes scanning right after each removed span.
The open tokens are the literal prefixes of the source patterns: script
and style blocks need no closing bracket after the tag name. -/

/-- Case-insensitive prefix test, with the pattern given in lower case. -/
def startsWithCI (pat : List Char) (l : List Char) : Bool :=
  match pat, l with
  | [], _ => true
  | _ :: _, [] => false
  | p :: ps, c :: cs => (c.toLower = p) && startsWithCI ps cs

/-- The suffix right after the first occurrence of pat, when pat occurs. -/
def findAfterCI (pat : List Char) : List Char → Option (List Char)
  | [] => if pat = [] then some [] else none
  | c :: t =>
    if startsWithCI pat (c :: t) then some ((c :: t).drop pat.length)
    else findAfterCI pat t

/-- The first lazy span: the text before the first opening token, and the
text after the nearest closing token that follows it. -/
def findSpanCI (opn cls : List Char) : List Char → Option (List Char × List Char)
  | [] => none
  | c :: t =>
    if startsWithCI opn (c :: t) then
      match findAfterCI cls ((c :: t).drop opn.length) with
      | some post => some ([], post)
      | none => none
    else
      match findSpanCI opn cls t with
      | some (pre, post) => some (c :: pre, post)
      | none => none

/-- Global replacement of every lazy span by nothing; the fuel bounds the
number of spans and the text length always suffices. -/
def replaceSpanCI (opn cls : List Char) : Nat → List Char → List Char
  | 0, l => l
  | fuel + 1, l =>
    match findSpanCI opn cls l with
    | none => l
    | some (pre, post) => pre ++ replaceSpanCI opn cls fuel post

/-- Whitespace-run collapse, the global replace of one-or-more whitespace
by a single space; the flag remembers whether the previous character was
part of a run. -/
def collapseWSAux (prevWS : Bool) : List Char → List Char
  | [] => []
  | c :: t =>
    if isJsWS c then
      if prevWS then collapseWSAux true t
      else ' ' :: collapseWSAux true t
    else c :: collapseWSAux false t

def collapseWS (l : List Char) : List Char := collapseWSAux false l

/-- part_000 stripScriptsStyles: script blocks, style blocks, comments,
whitespace collapse, trim. -/
def stripScriptsStyles (html : String) : String :=
  let l1 := replaceSpanCI "<script".data "</script>".data
    (html.data.length + 1) html.data
  let l2 := replaceSpanCI "<style".data "</style>".data (l1.length + 1) l1
  let l3 := replaceSpanCI "<!--".data "-->".data (l2.length + 1) l2
  ⟨trimList (collapseWS l3)⟩

/-- The outcome of one fetch attempt, the oracle input of the embedded
fetchHtmlPage variants: either the promise chain rejects (network error,
timeout, abort) or a response arrives with its ok flag and body text. -/
inductive FetchOutcome where
  | thrown : FetchOutcome
  | response (ok : Bool) (body : String) : FetchOutcome
deriving DecidableEq, Repr

structure FetchResult where
  url : String
  html : String
deriving DecidableEq, Repr

/-- part_000 fetchHtmlPage.execute: the catch maps any rejection to the
empty html, but a response is sanitized and truncated to 2000 characters
regardless of its status, with no res.ok check. -/
def fetchHtmlPage0 (url : String) (o : FetchOutcome) : FetchResult :=
  match o with
  | .thrown => ⟨url, ""⟩
  | .response _ body => ⟨url, ⟨(stripScriptsStyles body).data.take 2000⟩⟩

/-- The first part_001 fetchHtmlPage.execute: a non-ok status throws inside
the try, so every failure, thrown or non-success, lands in the catch and
yields the empty html. -/
def fetchHtmlPage1 (url : String) (o : FetchOutcome) : FetchResult :=
  match o with
  | .thrown => ⟨url, ""⟩
  | .response ok body => if ok then ⟨url, body⟩ else ⟨url, ""⟩

/-- A failed fetch: rejection, or a response whose ok flag is false. -/
def fetchFailure (o : FetchOutcome) : Prop :=
  o = .thrown ∨ ∃ body, o = .response false body

/-- Claim C7 counterexample: part_000 fetchHtmlPage, which the claim cites,
returns the sanitized error-page body, not the empty string, for a non-success
response, because it never consults res.ok. -/
theorem claim_C7_counterexample :
    (fetchHtmlPage0 "https://example.com/a"
        (.response false "<h1>Not Found</h1>")).html = "<h1>Not Found</h1>" ∧
    ("<h1>Not Found</h1>" : String) ≠ "" := by
  decide

/-- Claim C7 (amended): neither variant lets a failure escape its boundary;
the first part_001 variant returns empty html on every failure including a
non-success status, while part_000 returns empty html on thrown failures
(network error, timeout) only, and returns the sanitized, truncated body
for a non-success status. -/
theorem claim_C7_amended :
    (∀ (url : String) (o : FetchOutcome), fetchFailure o →
      (fetchHtmlPage1 url o).html = "") ∧
    (∀ url : String, (fetchHtmlPage0 url .thrown).html = "") := by
  constructor
  · rintro url o (rfl | ⟨body, rfl⟩)
    · rfl
    · simp [fetchHtmlPage1]
  · intro url
    rfl

/-- Claim C7 witness: the amended guarantee at a concrete url, a thrown
failure and a concrete 404 response. -/
theorem claim_C7_witness :
    (fetchHtmlPage1 "https://example.com/a" .thrown).html = "" ∧
    (fetchHtmlPage1 "https://example.com/a"
      (.response false "<h1>Not Found</h1>")).html = "" ∧
    (fetchHtmlPage0 "https://example.com/a" .thrown).html = "" :=
  ⟨claim_C7_amended.1 "https://example.com/a" .thrown (Or.inl rfl),
   claim_C7_amended.1 "https://example.com/a" _ (Or.inr ⟨"<h1>Not Found</h1>", rfl⟩),
   claim_C7_amended.2 "https://example.com/a"⟩

/-! ## The search domain filter (claim C8)

The search tools receive candidate links from the external engine; the URL
parse of each link is part of the oracle input: an item carries its link
and the hostname the URL constructor produced, or none when the
constructor threw and the catch skipped the item. -/

def allowedDomains : List String :=
  ["centris.ca", "realtor.ca", "royallepage.ca", "remax-quebec.com",
   "duproprio.com"]

def endsWithStr (s suffix : String) : Bool :=
  List.isSuffixOf suffix.data s.data

def strToLower (s : String) : String := ⟨s.data.map Char.toLower⟩

/-- part_000 domain test: exact match or dot-prefixed suffix. -/
def hostAllowed0 (host : String) : Bool :=
  allowedDomains.any (fun d => host == d || endsWithStr host ("." ++ d))

/-- Second part_001 variant domain test: bare endsWith. -/
def hostAllowed2 (host : String) : Bool :=
  allowedDomains.any (fun d => endsWithStr host d)

structure SearchItem where
  link : String
  host : Option String
deriving DecidableEq, Repr

/-- The filter loop of part_000 searchRealEstateListings.execute: lowercase
the hostname, keep allow-listed links, break at three results; a URL parse
failure is caught and the item skipped. -/
def run0Search (cnt : Nat) : List SearchItem → List String
  | [] => []
  | item :: rest =>
    match item.host with
    | none => run0Search cnt rest
    | some h =>
      if hostAllowed0 (strToLower h) then
        if 3 ≤ cnt + 1 then [item.link]
        else item.link :: run0Search (cnt + 1) rest
      else run0Search cnt rest

def searchRealEstateListings0 (items : List SearchItem) : List String :=
  run0Search 0 items

/-- The filter of the second part_001 variant: map to links, keep those
whose raw hostname merely ends with an allowed domain, no lowercase, no
cap. -/
def searchRealEstateListings2 (items : List SearchItem) : List String :=
  (items.filter (fun it =>
    match it.host with
    | some h => hostAllowed2 h
    | none => false)).map SearchItem.link

theorem run0Search_sound :
    ∀ (items : List SearchItem) (cnt : Nat) (u : String),
      u ∈ run0Search cnt items →
      ∃ it ∈ items, it.link = u ∧ ∃ h, it.host = some h ∧
        hostAllowed0 (strToLower h) = true := by
  intro items
  induction items with
  | nil => intro cnt u hu; simp [run0Search] at hu
  | cons item rest ih =>
    intro cnt u hu
    simp only [run0Search] at hu
    split at hu
    · obtain ⟨it, hit, rest'⟩ := ih _ u hu
      exact ⟨it, List.mem_cons_of_mem _ hit, rest'⟩
    · rename_i h hh
      split at hu
      · rename_i hallow
        split at hu
        · simp only [List.mem_singleton] at hu
          exact ⟨item, List.mem_cons_self _ _, hu.symm, h, hh, hallow⟩
        · simp only [List.mem_cons] at hu
          rcases hu with hu | hu
          · exact ⟨item, List.mem_cons_self _ _, hu.symm, h, hh, hallow⟩
          · obtain ⟨it, hit, rest'⟩ := ih _ u hu
            exact ⟨it, List.mem_cons_of_mem _ hit, rest'⟩
      · obtain ⟨it, hit, rest'⟩ := ih _ u hu
        exact ⟨it, List.mem_cons_of_mem _ hit, rest'⟩

theorem hostAllowed0_iff (h : String) :
    hostAllowed0 h = true ↔
      ∃ d ∈ allowedDomains, h = d ∨ endsWithStr h ("." ++ d) = true := by
  simp [hostAllowed0, List.any_eq_true, Bool.or_eq_true, beq_iff_eq]

/-- Claim C8 counterexample: the second part_001 searchRealEstateListings
variant, which the claim cites, uses a bare endsWith, so the hostname
evilcentris dot ca, which merely ends in an allowed domain without being it
or a subdomain of it, is included in the results. -/
theorem claim_C8_counterexample :
    searchRealEstateListings2
        [⟨"https://evilcentris.ca/listing/1", some "evilcentris.ca"⟩] =
      ["https://evilcentris.ca/listing/1"] ∧
    ¬ ∃ d ∈ allowedDomains, ("evilcentris.ca" : String) = d ∨
        endsWithStr "evilcentris.ca" ("." ++ d) = true := by
  constructor
  · decide
  · decide

/-- Claim C8 (amended): every URL returned by the part_000 variant comes
from an item whose lowercased hostname exactly matches an allow-listed
domain or ends with a dot followed by one, so a hostname merely ending in
an allowed domain is never included there; the second part_001 variant uses
the bare suffix test and does include such hostnames. -/
theorem claim_C8_amended :
    (∀ (items : List SearchItem) (u : String),
      u ∈ searchRealEstateListings0 items →
      ∃ it ∈ items, it.link = u ∧ ∃ h, it.host = some h ∧
        ∃ d ∈ allowedDomains, strToLower h = d ∨
          endsWithStr (strToLower h) ("." ++ d) = true) ∧
    (¬ ∃ d ∈ allowedDomains, ("evilcentris.ca" : String) = d ∨
        endsWithStr "evilcentris.ca" ("." ++ d) = true) := by
  constructor
  · intro items u hu
    obtain ⟨it, hit, hlink, h, hh, hallow⟩ := run0Search_sound items 0 u hu
    exact ⟨it, hit, hlink, h, hh, (hostAllowed0_iff _).mp hallow⟩
  · decide

/-- Claim C8 witness: the soundness statement applied to a concrete item
list containing one subdomain link, one merely-suffix link and one
unparseable link; only the subdomain link is returned. -/
theorem claim_C8_witness :
    ∃ it ∈ [(⟨"https://www.centris.ca/fr/maison", some "www.centris.ca"⟩ : SearchItem),
            ⟨"https://evilcentris.ca/listing/1", some "evilcentris.ca"⟩,
            ⟨"not a url", none⟩],
      it.link = "https://www.centris.ca/fr/maison" ∧
      ∃ h, it.host = some h ∧
        ∃ d ∈ allowedDomains, strToLower h = d ∨
          endsWithStr (strToLower h) ("." ++ d) = true :=
  claim_C8_amended.1
    [⟨"https://www.centris.ca/fr/maison", some "www.centris.ca"⟩,
     ⟨"https://evilcentris.ca/listing/1", some "evilcentris.ca"⟩,
     ⟨"not a url", none⟩]
    "https://www.centris.ca/fr/maison" (by decide)

end ListingFinder
